import Mathlib

/-!
Verification of the go-logparser core (format detection, JSON / logfmt / text
line extraction, level and timestamp normalization).

Shallow embedding conventions:
  - Go `time.Time` is modelled by `GoTime`, an instant represented as
    nanoseconds since the zero instant (January 1, year 1, UTC), so the Go
    zero `time.Time{}` is `GoTime.zeroT` and `IsZero` is a comparison with 0.
  - The Go standard library collaborators are abstracted as explicit
    parameters: `json.Unmarshal` into `map[string]interface{}` becomes a
    `decode : String -> Option JsonObj` parameter, `time.Parse` becomes a
    `tparse : String -> String -> Option GoTime` parameter (layout, value),
    `regexp.FindStringSubmatch` becomes a `String -> Option (List String)`
    field, `regexp.Compile` a `String -> Option ...` parameter, and the
    `time.Now()` fallback an explicit `now : GoTime` parameter.
  - Go maps (`map[string]interface{}`) are modelled as association lists
    observed only through `lookupKV`; `delete` is `removeKey`; insertion with
    overwrite is `mapInsert`.
  - Go strings are iterated byte-wise; the embedding iterates `Char`-wise over
    `String.data`, which agrees with the source on ASCII input.
-/

/-- GoTime models a Go `time.Time` instant: nanoseconds since the zero
instant (January 1, year 1, 00:00:00 UTC). -/
structure GoTime where
  rep : Int
  deriving DecidableEq, Repr

/-- The Go zero time `time.Time{}`. -/
def GoTime.zeroT : GoTime := ⟨0⟩

/-- Go `(t time.Time).IsZero()`. -/
def GoTime.isZero (t : GoTime) : Bool := t.rep == 0

/-- Go `time.Unix(sec, 0)`: the Unix epoch is 62135596800 seconds after the
zero instant. -/
def timeUnix (sec : Int) : GoTime := ⟨(sec + 62135596800) * 1000000000⟩

/-- JsonVal models the dynamically-typed values a decoded
`map[string]interface{}` can hold (Go JSON numbers are modelled as integers;
every timestamp the repository treats numerically is a whole-second epoch). -/
inductive JsonVal where
  | str (s : String)
  | num (n : Int)
  | bool (b : Bool)
  | null
  | arr (xs : List JsonVal)
  | obj (kvs : List (String × JsonVal))
  deriving Repr

/-- A decoded generic object, as produced by `json.Unmarshal` into
`map[string]interface{}`. -/
abbrev JsonObj := List (String × JsonVal)

/-- The abstract JSON decoder standing for `json.Unmarshal` into a generic
map: `none` models a decode error. -/
abbrev Decoder := String → Option JsonObj

/-- The abstract `time.Parse` standing for the Go time package:
`tparse layout value` is `some t` when Go `time.Parse(layout, value)`
succeeds with instant `t`. -/
abbrev TimeParse := String → String → Option GoTime

/-- Go `unicode.IsSpace` restricted to the ASCII whitespace characters
(the inputs of every claim are ASCII). -/
def isSpaceChar (c : Char) : Bool :=
  c == ' ' || c == '\t' || c == '\n' || c == '\r' || c == '\x0b' || c == '\x0c'

/-- Go `strings.TrimSpace`. -/
def trimSpace (s : String) : String :=
  ⟨((s.data.dropWhile isSpaceChar).reverse.dropWhile isSpaceChar).reverse⟩

/-- Go `strings.Split(s, "\n")`. -/
def splitOnNL (s : String) : List String :=
  (s.data.foldr
    (fun c acc =>
      if c = '\n' then [] :: acc
      else
        match acc with
        | [] => [[c]]
        | g :: gs => (c :: g) :: gs)
    [[]]).map String.mk

/-- Go `unicode.ToUpper` on one character (ASCII range). -/
def charToUpper (c : Char) : Char :=
  if 'a' ≤ c ∧ c ≤ 'z' then Char.ofNat (c.toNat - 32) else c

/-- Go `strings.ToUpper`. -/
def goToUpper (s : String) : String := ⟨s.data.map charToUpper⟩

/-- Go map read `m[key]`: the unique binding of `key` (first binding in the
association-list model). -/
def lookupKV {β : Type} : List (String × β) → String → Option β
  | [], _ => none
  | (k, v) :: rest, key => if key = k then some v else lookupKV rest key

/-- Go `delete(m, key)`. -/
def removeKey {β : Type} (m : List (String × β)) (key : String) : List (String × β) :=
  m.filter (fun p => p.1 != key)

/-- Go map write `m[key] = v` (overwrites any existing binding). -/
def mapInsert {α β : Type} [BEq α] (m : List (α × β)) (key : α) (v : β) : List (α × β) :=
  m.filter (fun p => p.1 != key) ++ [(key, v)]

/-- LogEntry mirrors the Go struct of the same name. -/
structure LogEntry where
  Timestamp : GoTime
  Level : String
  Message : String
  Fields : JsonObj
  deriving Repr

/-- The error values the parsing entry points can return
(`ErrEmptyLine`, the wrapped `invalid JSON` error, and the unreachable
`auto-detection failed` error of `parseLines`). -/
inductive GoErr where
  | emptyLine
  | invalidJSON
  | autoDetectFailed
  deriving DecidableEq, Repr

/-- ParseError mirrors the Go struct of the same name (`Type`, `Value`,
`Err`). -/
structure ParseError where
  type : String
  value : JsonVal
  err : String

/-- True exactly on `Except.ok`. -/
def exceptIsOk {α : Type} (r : Except GoErr α) : Bool :=
  match r with
  | .ok _ => true
  | .error _ => false

/-- The number of records of a successful result, `none` on error. -/
def okLength (r : Except GoErr (List LogEntry)) : Option Nat :=
  match r with
  | .ok es => some es.length
  | .error _ => none

/-- First key of `ks` on which the per-key probe `h` fires, together with the
probe's result: the shape of the `for _, key := range [...]` loops in the
source extractors. -/
def findHit {β : Type} (h : String → Option β) : List String → Option (String × β)
  | [] => none
  | k :: ks =>
    match h k with
    | some b => some (k, b)
    | none => findHit h ks

/-! ## types.go -/

/-- ParseLevel (types.go): parses a string to a standard level via a switch
on its uppercasing. -/
def ParseLevel (s : String) : String :=
  match goToUpper s with
  | "DEBUG" | "DBG" => "DEBUG"
  | "INFO" | "INF" => "INFO"
  | "WARN" | "WARNING" | "WRN" => "WARN"
  | "ERROR" | "ERR" => "ERROR"
  | "FATAL" | "FTL" => "FATAL"
  | _ => "INFO"

/-- The format template list of parseTimestamp (types.go):
`time.RFC3339`, `time.RFC3339Nano`, then the three literal layouts. -/
def timestampFormats : List String :=
  ["2006-01-02T15:04:05Z07:00",
   "2006-01-02T15:04:05.999999999Z07:00",
   "2006-01-02T15:04:05.000Z",
   "2006-01-02 15:04:05",
   "Jan 02 15:04:05"]

/-- The `for _, format := range formats` loop body of parseTimestamp: first
layout that parses wins. -/
def tryFormats (tparse : TimeParse) : List String → String → Option GoTime
  | [], _ => none
  | f :: fs, v =>
    match tparse f v with
    | some t => some t
    | none => tryFormats tparse fs v

/-- parseTimestamp (types.go): a string is tried against the fixed layout
list; a number is `time.Unix(int64(v), 0)`; any other type is a structured
error. -/
def parseTimestamp (tparse : TimeParse) : JsonVal → Except ParseError GoTime
  | .str v =>
    match tryFormats tparse timestampFormats v with
    | some t => .ok t
    | none => .error ⟨"timestamp", .str v, "unknown time format"⟩
  | .num n => .ok (timeUnix n)
  | v => .error ⟨"timestamp", v, "unsupported timestamp type"⟩

/-! ## json.go -/

/-- The timestamp key alias list of extractJSONTimestamp. -/
def jsonTsKeys : List String := ["timestamp", "time", "@timestamp", "ts"]

/-- The level key alias list of extractJSONLevel. -/
def jsonLvlKeys : List String := ["level", "severity", "log.level"]

/-- The message key alias list of extractJSONMessage. -/
def jsonMsgKeys : List String := ["message", "msg", "log"]

/-- The per-key body of the extractJSONTimestamp loop: the key is a hit when
it is present and its value parses as a timestamp. -/
def jsonTsHit (tparse : TimeParse) (raw : JsonObj) (k : String) : Option GoTime :=
  match lookupKV raw k with
  | some v =>
    match parseTimestamp tparse v with
    | .ok t => some t
    | .error _ => none
  | none => none

/-- The per-key body of the extractJSONLevel / extractJSONMessage loops: the
key is a hit when it is present with a string value. -/
def jsonStrHit (raw : JsonObj) (k : String) : Option String :=
  match lookupKV raw k with
  | some (JsonVal.str s) => some s
  | some _ => none
  | none => none

/-- extractJSONTimestamp (json.go): the first alias key whose value parses is
recorded and deleted; otherwise a still-zero timestamp defaults to `now`. -/
def extractJSONTimestamp (tparse : TimeParse) (now : GoTime) (raw : JsonObj)
    (ts0 : GoTime) : GoTime × JsonObj :=
  match findHit (jsonTsHit tparse raw) jsonTsKeys with
  | some (k, t) => (t, removeKey raw k)
  | none => (if ts0.isZero then now else ts0, raw)

/-- extractJSONLevel (json.go): the first alias key with a string value is
normalized and deleted; otherwise the level defaults to `LevelInfo`. -/
def extractJSONLevel (raw : JsonObj) : String × JsonObj :=
  match findHit (jsonStrHit raw) jsonLvlKeys with
  | some (k, s) => (ParseLevel s, removeKey raw k)
  | none => ("INFO", raw)

/-- extractJSONMessage (json.go): the first alias key with a string value is
used and deleted; otherwise the message stays the Go zero string. -/
def extractJSONMessage (raw : JsonObj) : String × JsonObj :=
  match findHit (jsonStrHit raw) jsonMsgKeys with
  | some (k, s) => (s, removeKey raw k)
  | none => ("", raw)

/-- The entry parseJSONLine builds from a successfully decoded object: the
three extractors run in order on the shrinking map and the residue becomes
`Fields`. -/
def jsonEntryOf (tparse : TimeParse) (now : GoTime) (raw : JsonObj) : LogEntry :=
  ⟨(extractJSONTimestamp tparse now raw GoTime.zeroT).1,
   (extractJSONLevel (extractJSONTimestamp tparse now raw GoTime.zeroT).2).1,
   (extractJSONMessage
     (extractJSONLevel (extractJSONTimestamp tparse now raw GoTime.zeroT).2).2).1,
   (extractJSONMessage
     (extractJSONLevel (extractJSONTimestamp tparse now raw GoTime.zeroT).2).2).2⟩

/-- parseJSONLine (json.go): empty trimmed line is `ErrEmptyLine`; a decode
failure is the wrapped `invalid JSON` error; otherwise the extractors run. -/
def parseJSONLine (decode : Decoder) (tparse : TimeParse) (now : GoTime)
    (line : String) : Except GoErr LogEntry :=
  if trimSpace line = "" then .error .emptyLine
  else
    match decode (trimSpace line) with
    | none => .error .invalidJSON
    | some raw => .ok (jsonEntryOf tparse now raw)

/-- parseJSON (json.go): per-line parsing with fail-fast error propagation. -/
def parseJSON (decode : Decoder) (tparse : TimeParse) (now : GoTime) :
    List String → Except GoErr (List LogEntry)
  | [] => .ok []
  | l :: ls =>
    match parseJSONLine decode tparse now l with
    | .error e => .error e
    | .ok ent =>
      match parseJSON decode tparse now ls with
      | .error e => .error e
      | .ok es => .ok (ent :: es)

/-! ## logfmt.go -/

/-- Go `i > 0 && line[i-1] != '\\'` with `prev` the character before the
current index (`none` at index 0). -/
def prevNotBackslash : Option Char → Bool
  | some c => c != '\\'
  | none => false

/-- The character loop of parseLogfmtPairs (logfmt.go), carried over the
remaining characters with the previous character, the pending key and value,
and the `inQuotes` / `inKey` flags. -/
def parseLogfmtPairsAux :
    List Char → Option Char → List Char → List Char → Bool → Bool →
    List (List Char × List Char) → List (List Char × List Char)
  | [], _, key, value, _, _, pairs =>
    if key ≠ [] then mapInsert pairs key value else pairs
  | ch :: rest, prev, key, value, inQuotes, inKey, pairs =>
    if ch = '=' ∧ inKey = true ∧ inQuotes = false then
      parseLogfmtPairsAux rest (some ch) key value inQuotes false pairs
    else if ch = '"' ∧ inKey = false then
      if prevNotBackslash prev then
        parseLogfmtPairsAux rest (some ch) key value (!inQuotes) inKey pairs
      else
        parseLogfmtPairsAux rest (some ch) key (value ++ [ch]) inQuotes inKey pairs
    else if ch = ' ' ∧ inQuotes = false ∧ inKey = false then
      parseLogfmtPairsAux rest (some ch) [] [] inQuotes true
        (if key ≠ [] then mapInsert pairs key value else pairs)
    else if inKey = true then
      parseLogfmtPairsAux rest (some ch) (key ++ [ch]) value inQuotes inKey pairs
    else
      parseLogfmtPairsAux rest (some ch) key (value ++ [ch]) inQuotes inKey pairs

/-- parseLogfmtPairs (logfmt.go): key=value pairs of one line. -/
def parseLogfmtPairs (line : String) : List (String × String) :=
  (parseLogfmtPairsAux line.data none [] [] false true []).map
    (fun p => (String.mk p.1, String.mk p.2))

/-- The timestamp key alias list of extractLogfmtTimestamp. -/
def logfmtTsKeys : List String := ["timestamp", "time", "ts"]

/-- The per-key body of the extractLogfmtTimestamp loop. -/
def logfmtTsHit (tparse : TimeParse) (pairs : List (String × String))
    (k : String) : Option GoTime :=
  match lookupKV pairs k with
  | some v =>
    match parseTimestamp tparse (JsonVal.str v) with
    | .ok t => some t
    | .error _ => none
  | none => none

/-- extractLogfmtTimestamp (logfmt.go): no default-to-now of its own. -/
def extractLogfmtTimestamp (tparse : TimeParse) (pairs : List (String × String))
    (ts0 : GoTime) : GoTime × List (String × String) :=
  match findHit (logfmtTsHit tparse pairs) logfmtTsKeys with
  | some (k, t) => (t, removeKey pairs k)
  | none => (ts0, pairs)

/-- extractLogfmtLevel (logfmt.go): only the key `level`; absence keeps the
entry's default INFO. -/
def extractLogfmtLevel (pairs : List (String × String)) :
    String × List (String × String) :=
  match lookupKV pairs "level" with
  | some s => (ParseLevel s, removeKey pairs "level")
  | none => ("INFO", pairs)

/-- extractLogfmtMessage (logfmt.go): keys `msg` then `message`; absence
keeps the empty message. -/
def extractLogfmtMessage (pairs : List (String × String)) :
    String × List (String × String) :=
  match findHit (fun k => lookupKV pairs k) ["msg", "message"] with
  | some (k, s) => (s, removeKey pairs k)
  | none => ("", pairs)

/-- parseLogfmtLine (logfmt.go): tokenize, lift the standard fields, copy the
residue into `Fields` (logfmt values are strings), default a still-zero
timestamp to `now`. -/
def parseLogfmtLine (tparse : TimeParse) (now : GoTime) (line : String) :
    Except GoErr LogEntry :=
  if trimSpace line = "" then .error .emptyLine
  else
    let pairs := parseLogfmtPairs (trimSpace line)
    let p1 := extractLogfmtTimestamp tparse pairs GoTime.zeroT
    let p2 := extractLogfmtLevel p1.2
    let p3 := extractLogfmtMessage p2.2
    let fields := p3.2.map (fun p => (p.1, JsonVal.str p.2))
    .ok ⟨if p1.1.isZero then now else p1.1, p2.1, p3.1, fields⟩

/-- parseLogfmt (logfmt.go): per-line parsing with fail-fast error
propagation (though parseLogfmtLine only fails on empty lines). -/
def parseLogfmt (tparse : TimeParse) (now : GoTime) :
    List String → Except GoErr (List LogEntry)
  | [] => .ok []
  | l :: ls =>
    match parseLogfmtLine tparse now l with
    | .error e => .error e
    | .ok ent =>
      match parseLogfmt tparse now ls with
      | .error e => .error e
      | .ok es => .ok (ent :: es)

/-! ## text.go -/

/-- A compiled text pattern (text.go `textPattern`): the regex is abstracted
to its `FindStringSubmatch` behavior (`none` for no match, otherwise the
submatch list with the whole match at index 0). -/
structure textPattern where
  regex : String → Option (List String)
  tsFormat : String
  tsIndex : Nat
  lvlIndex : Nat
  msgIndex : Nat

/-- One row of the pattern table of initTextPatterns, before compilation. -/
structure textPatternRow where
  pattern : String
  tsFormat : String
  tsIndex : Nat
  lvlIndex : Nat
  msgIndex : Nat

/-- The constants of types.go used by the pattern table. -/
def LevelIndex : Nat := 2

/-- The constant MessageIndex of types.go. -/
def MessageIndex : Nat := 3

/-- The constant MessageIndexAlt of types.go. -/
def MessageIndexAlt : Nat := 2

/-- The fixed pattern table of initTextPatterns (text.go): syslog, common,
ISO, and bare-bracketed-level shapes, in that order. -/
def textPatternRows : List textPatternRow :=
  [⟨"^(\\w{3}\\s+\\d{1,2}\\s+\\d{2}:\\d{2}:\\d{2})\\s+\\S+\\s+\\S+:\\s+\\[?(\\w+)\\]?\\s+(.*)$",
    "Jan 02 15:04:05", 1, LevelIndex, MessageIndex⟩,
   ⟨"^(\\d{4}-\\d{2}-\\d{2}\\s+\\d{2}:\\d{2}:\\d{2})\\s+\\[(\\w+)\\]\\s+(.*)$",
    "2006-01-02 15:04:05", 1, LevelIndex, MessageIndex⟩,
   ⟨"^(\\d{4}-\\d{2}-\\d{2}T\\d{2}:\\d{2}:\\d{2}\\.\\d{3}Z?)\\s+\\[?(\\w+)\\]?\\s+(.*)$",
    "2006-01-02T15:04:05Z07:00", 1, LevelIndex, MessageIndex⟩,
   ⟨"^\\[(\\w+)\\]\\s+(.*)$", "", 0, 1, MessageIndexAlt⟩]

/-- initTextPatterns (text.go): compile each row, silently dropping rows
whose pattern fails to compile; `compile` abstracts `regexp.Compile`. -/
def initTextPatterns (compile : String → Option (String → Option (List String))) :
    List textPattern :=
  textPatternRows.filterMap (fun r =>
    match compile r.pattern with
    | some re => some ⟨re, r.tsFormat, r.tsIndex, r.lvlIndex, r.msgIndex⟩
    | none => none)

/-- The per-match body of the parseTextLine pattern loop: guarded extraction
of timestamp, level and message from the submatch list. -/
def applyPat (tparse : TimeParse) (p : textPattern) (ms : List String)
    (e : LogEntry) : LogEntry :=
  let e1 :=
    if 0 < p.tsIndex ∧ p.tsIndex < ms.length ∧ p.tsFormat ≠ "" then
      match tparse p.tsFormat (ms.getD p.tsIndex "") with
      | some t => { e with Timestamp := t }
      | none => e
    else e
  let e2 :=
    if 0 < p.lvlIndex ∧ p.lvlIndex < ms.length then
      { e1 with Level := ParseLevel (ms.getD p.lvlIndex "") }
    else e1
  if 0 < p.msgIndex ∧ p.msgIndex < ms.length then
    { e2 with Message := ms.getD p.msgIndex "" }
  else e2

/-- The `for _, pattern := range patterns` loop of parseTextLine: the first
pattern whose regex matches is applied and the loop breaks. -/
def tryPatterns (tparse : TimeParse) : List textPattern → String → LogEntry → LogEntry
  | [], _, e => e
  | p :: ps, l, e =>
    match p.regex l with
    | some ms => applyPat tparse p ms e
    | none => tryPatterns tparse ps l e

/-- The trailing default of parseTextLine: a still-zero timestamp is set to
the current time. -/
def textFinalize (now : GoTime) (e1 : LogEntry) : LogEntry :=
  if e1.Timestamp.isZero then { e1 with Timestamp := now } else e1

/-- parseTextLine (text.go): default entry {message = trimmed line,
level = INFO, timestamp = zero}, first matching pattern applied, then a
still-zero timestamp defaults to `now`; only an empty line fails. -/
def parseTextLine (tparse : TimeParse) (now : GoTime) (pats : List textPattern)
    (line : String) : Except GoErr LogEntry :=
  if trimSpace line = "" then .error .emptyLine
  else
    .ok (textFinalize now
      (tryPatterns tparse pats (trimSpace line)
        ⟨GoTime.zeroT, "INFO", trimSpace line, []⟩))

/-- parseText (text.go): compiles the pattern table once, then parses each
line with fail-fast error propagation (parseTextLine only fails on empty
lines). -/
def parseText (tparse : TimeParse) (now : GoTime)
    (compile : String → Option (String → Option (List String))) :
    List String → Except GoErr (List LogEntry)
  | [] => .ok []
  | l :: ls =>
    match parseTextLine tparse now (initTextPatterns compile) l with
    | .error e => .error e
    | .ok ent =>
      match parseText tparse now compile ls with
      | .error e => .error e
      | .ok es => .ok (ent :: es)

/-! ## detector.go -/

/-- Whether `a` begins with `b`. -/
def strStarts : List Char → List Char → Bool
  | _, [] => true
  | [], _ :: _ => false
  | h :: hs, n :: ns => h == n && strStarts hs ns

/-- Whether `a` ends with `b`. -/
def strEnds (a b : List Char) : Bool := strStarts a.reverse b.reverse

/-- Whether `needle` occurs as a contiguous run inside `hay`
(Go `strings.Contains`). -/
def hasSubstr : List Char → List Char → Bool
  | [], needle => needle.isEmpty
  | h :: t, needle => strStarts (h :: t) needle || hasSubstr t needle

/-- isJSON (detector.go): brace-delimited after trimming and decodable as a
generic object. -/
def isJSON (decode : Decoder) (line : String) : Bool :=
  let l := trimSpace line
  if strStarts l.data ['\x7b'] && strEnds l.data ['\x7d'] then
    (decode l).isSome
  else false

/-- isLogfmt (detector.go): contains a `=` and one of the four literal
marker substrings. -/
def isLogfmt (line : String) : Bool :=
  hasSubstr line.data ['='] &&
    (hasSubstr line.data "level=".data || hasSubstr line.data "msg=".data ||
      hasSubstr line.data "time=".data || hasSubstr line.data "timestamp=".data)

/-- Format mirrors the Go enumeration of the same name. -/
inductive Format where
  | auto
  | json
  | logfmt
  | text
  deriving DecidableEq, Repr

/-- The scoring loop of detectFormat: JSON, logfmt and text scores of a
sample list (every line scores for text). -/
def countScores (decode : Decoder) : List String → Nat × Nat × Nat
  | [] => (0, 0, 0)
  | s :: rest =>
    let r := countScores decode rest
    ((if isJSON decode s then 1 else 0) + r.1,
     (if isLogfmt s then 1 else 0) + r.2.1,
     1 + r.2.2)

/-- detectFormat (detector.go): score up to 10 samples, then prefer JSON over
logfmt over text using the fixed strict-majority-over-half thresholds. -/
def detectFormat (decode : Decoder) (samples : List String) : Format :=
  if samples.length = 0 then .text
  else
    let sampleSize := if samples.length < 10 then samples.length else 10
    let sc := countScores decode (samples.take sampleSize)
    if sc.1 > sc.2.1 ∧ sc.1 > sc.2.2 / 2 then .json
    else if sc.2.1 > sc.2.2 / 2 then .logfmt
    else .text

/-! ## parser.go (dispatcher) -/

/-- parseLines (parser.go): empty input is an empty result; AUTO resolves
through the detector; then the per-format parser runs (the `FormatAuto`
switch arm is the unreachable `auto-detection failed` error; the `default`
arm coincides with the text arm). -/
def parseLines (fmt : Format) (decode : Decoder) (tparse : TimeParse)
    (now : GoTime) (compile : String → Option (String → Option (List String)))
    (lines : List String) : Except GoErr (List LogEntry) :=
  if lines.length = 0 then .ok []
  else
    let f := if fmt = .auto then detectFormat decode lines else fmt
    match f with
    | .auto => .error .autoDetectFailed
    | .json => parseJSON decode tparse now lines
    | .logfmt => parseLogfmt tparse now lines
    | .text => parseText tparse now compile lines

/-- The line cleaning of ParseString (parser.go): trim every line and keep
the non-empty ones. -/
def cleanLines (xs : List String) : List String :=
  (xs.map (fun l => trimSpace l)).filter (fun l => l != "")

/-- ParseString (parser.go): split on newlines, clean, and dispatch. -/
def ParseString (fmt : Format) (decode : Decoder) (tparse : TimeParse)
    (now : GoTime) (compile : String → Option (String → Option (List String)))
    (s : String) : Except GoErr (List LogEntry) :=
  parseLines fmt decode tparse now compile (cleanLines (splitOnNL s))

/-! ## Properties stated from the specification's wording -/

/-- Claim-side restatement of the level normalizer: uppercase, then the alias
table DBG→DEBUG, INF→INFO, WRN/WARNING→WARN, ERR→ERROR, FTL→FATAL, canonical
names to themselves, everything else to INFO. -/
def normalizeLevelSpec (raw : String) : String :=
  let u := goToUpper raw
  if u = "DBG" ∨ u = "DEBUG" then "DEBUG"
  else if u = "INF" ∨ u = "INFO" then "INFO"
  else if u = "WRN" ∨ u = "WARNING" ∨ u = "WARN" then "WARN"
  else if u = "ERR" ∨ u = "ERROR" then "ERROR"
  else if u = "FTL" ∨ u = "FATAL" then "FATAL"
  else "INFO"

/-- Claim-side restatement of parseTimestamp: the five layouts written out in
the claimed fixed order, first success wins, structured errors otherwise. -/
def parseTimestampSpec (tparse : TimeParse) : JsonVal → Except ParseError GoTime
  | .str v =>
    match tparse "2006-01-02T15:04:05Z07:00" v with
    | some t => .ok t
    | none =>
      match tparse "2006-01-02T15:04:05.999999999Z07:00" v with
      | some t => .ok t
      | none =>
        match tparse "2006-01-02T15:04:05.000Z" v with
        | some t => .ok t
        | none =>
          match tparse "2006-01-02 15:04:05" v with
          | some t => .ok t
          | none =>
            match tparse "Jan 02 15:04:05" v with
            | some t => .ok t
            | none => .error ⟨"timestamp", .str v, "unknown time format"⟩
  | .num n => .ok (timeUnix n)
  | v => .error ⟨"timestamp", v, "unsupported timestamp type"⟩

/-- Claim-side restatement of the detector: score the first min(10, length)
lines with the three per-line tests, then apply the strict threshold rule;
an empty list is TEXT. -/
def detectFormatSpec (decode : Decoder) (samples : List String) : Format :=
  if samples = [] then .text
  else
    let tk := samples.take (min 10 samples.length)
    let sj := tk.countP (fun l => isJSON decode l)
    let sl := tk.countP (fun l => isLogfmt l)
    let st := min 10 samples.length
    if sj > sl ∧ sj > st / 2 then .json
    else if sl > st / 2 then .logfmt
    else .text

/-- Claim-side timestamp lifting for a decoded object: the keys `timestamp`,
`time`, `@timestamp`, `ts` tried in exactly that order; the first key present
whose value parses wins. -/
def firstTsKeySpec (tparse : TimeParse) (raw : JsonObj) : Option (String × GoTime) :=
  match jsonTsHit tparse raw "timestamp" with
  | some t => some ("timestamp", t)
  | none =>
    match jsonTsHit tparse raw "time" with
    | some t => some ("time", t)
    | none =>
      match jsonTsHit tparse raw "@timestamp" with
      | some t => some ("@timestamp", t)
      | none =>
        match jsonTsHit tparse raw "ts" with
        | some t => some ("ts", t)
        | none => none

/-- Claim-side level lifting: the keys `level`, `severity`, `log.level` tried
in that order; the first key present with a string value wins. -/
def firstLvlKeySpec (raw : JsonObj) : Option (String × String) :=
  match jsonStrHit raw "level" with
  | some s => some ("level", s)
  | none =>
    match jsonStrHit raw "severity" with
    | some s => some ("severity", s)
    | none =>
      match jsonStrHit raw "log.level" with
      | some s => some ("log.level", s)
      | none => none

/-- Claim-side message lifting: the keys `message`, `msg`, `log` tried in
that order; the first key present with a string value wins. -/
def firstMsgKeySpec (raw : JsonObj) : Option (String × String) :=
  match jsonStrHit raw "message" with
  | some s => some ("message", s)
  | none =>
    match jsonStrHit raw "msg" with
    | some s => some ("msg", s)
    | none =>
      match jsonStrHit raw "log" with
      | some s => some ("log", s)
      | none => none

/-- The keys the structured extractor consumes out of a decoded object, per
the claim-side liftings. -/
def consumedKeysSpec (tparse : TimeParse) (raw : JsonObj) : List String :=
  (match firstTsKeySpec tparse raw with
   | some p => [p.1]
   | none => []) ++
  (match firstLvlKeySpec raw with
   | some p => [p.1]
   | none => []) ++
  (match firstMsgKeySpec raw with
   | some p => [p.1]
   | none => [])

/-- Proper quoting of a quoted-value body `vs` whose preceding character is
`p`: every quote inside the body is preceded by a backslash, and the
character just before the closing quote is not a backslash. -/
def quotesOkB : Char → List Char → Bool
  | p, [] => p != '\\'
  | p, c :: cs => (if c = '"' then p == '\\' else true) && quotesOkB c cs

/-! ## Helper lemmas -/

theorem lookupKV_removeKey_self {β : Type} (m : List (String × β)) (k : String) :
    lookupKV (removeKey m k) k = none := by
  induction m with
  | nil => rfl
  | cons p rest ih =>
    obtain ⟨a, b⟩ := p
    by_cases h : a = k
    · simpa [removeKey, List.filter_cons, h] using ih
    · simpa [removeKey, List.filter_cons, lookupKV, bne_iff_ne, h, Ne.symm h] using ih

theorem lookupKV_removeKey_ne {β : Type} (m : List (String × β)) {k k2 : String}
    (h : k ≠ k2) : lookupKV (removeKey m k2) k = lookupKV m k := by
  induction m with
  | nil => rfl
  | cons p rest ih =>
    obtain ⟨a, b⟩ := p
    simp only [removeKey, List.filter_cons] at ih ⊢
    by_cases ha : a = k2
    · subst ha
      simp [lookupKV, h, ih]
    · by_cases hk : k = a <;> simp [lookupKV, bne_iff_ne, ha, hk, ih]

theorem lookupKV_removeKey_none {β : Type} (m : List (String × β)) {k : String}
    (k2 : String) (h : lookupKV m k = none) :
    lookupKV (removeKey m k2) k = none := by
  by_cases hk : k = k2
  · subst hk; exact lookupKV_removeKey_self m k
  · rw [lookupKV_removeKey_ne m hk]; exact h

theorem findHit_some {β : Type} {h : String → Option β} {ks : List String}
    {k : String} {b : β} (hf : findHit h ks = some (k, b)) :
    k ∈ ks ∧ h k = some b := by
  induction ks with
  | nil => simp [findHit] at hf
  | cons a as ih =>
    rw [findHit] at hf
    cases hha : h a with
    | some b2 =>
      rw [hha] at hf
      obtain ⟨hk, hb⟩ := Prod.mk.injEq a b2 k b ▸ Option.some.inj hf
      subst hk; subst hb
      exact ⟨List.mem_cons_self a as, hha⟩
    | none =>
      rw [hha] at hf
      obtain ⟨h1, h2⟩ := ih hf
      exact ⟨List.mem_cons_of_mem a h1, h2⟩

theorem findHit_congr {β : Type} {h1 h2 : String → Option β} :
    ∀ ks : List String, (∀ k ∈ ks, h1 k = h2 k) →
      findHit h1 ks = findHit h2 ks := by
  intro ks
  induction ks with
  | nil => intro _; rfl
  | cons a as ih =>
    intro hk
    rw [findHit, findHit, hk a (List.mem_cons_self a as)]
    cases h2 a with
    | some b => rfl
    | none => exact ih (fun k hm => hk k (List.mem_cons_of_mem a hm))

theorem jsonStrHit_removeKey {raw : JsonObj} {k k0 : String} (h : k ≠ k0) :
    jsonStrHit (removeKey raw k0) k = jsonStrHit raw k := by
  unfold jsonStrHit
  rw [lookupKV_removeKey_ne raw h]

theorem findHit_ts_eq (tparse : TimeParse) (raw : JsonObj) :
    findHit (jsonTsHit tparse raw) jsonTsKeys = firstTsKeySpec tparse raw := by
  simp only [jsonTsKeys, findHit, firstTsKeySpec]
  cases jsonTsHit tparse raw "timestamp" <;>
    cases jsonTsHit tparse raw "time" <;>
      cases jsonTsHit tparse raw "@timestamp" <;>
        cases jsonTsHit tparse raw "ts" <;> rfl

theorem findHit_lvl_eq (raw : JsonObj) :
    findHit (jsonStrHit raw) jsonLvlKeys = firstLvlKeySpec raw := by
  simp only [jsonLvlKeys, findHit, firstLvlKeySpec]
  cases jsonStrHit raw "level" <;>
    cases jsonStrHit raw "severity" <;>
      cases jsonStrHit raw "log.level" <;> rfl

theorem findHit_msg_eq (raw : JsonObj) :
    findHit (jsonStrHit raw) jsonMsgKeys = firstMsgKeySpec raw := by
  simp only [jsonMsgKeys, findHit, firstMsgKeySpec]
  cases jsonStrHit raw "message" <;>
    cases jsonStrHit raw "msg" <;>
      cases jsonStrHit raw "log" <;> rfl

/-! ## Claims -/

/-- Claim C8: for every input string, the level normalizer uppercases it and
maps DBG to DEBUG, INF to INFO, WRN and WARNING to WARN, ERR to ERROR, FTL to
FATAL, each exact canonical name to itself, and every other string (including
the empty string) to INFO; it is total and never fails (its result is always
one of the five canonical levels). -/
theorem claimC8_parseLevel :
    ∀ s : String, ParseLevel s = normalizeLevelSpec s ∧
      (ParseLevel s = "DEBUG" ∨ ParseLevel s = "INFO" ∨ ParseLevel s = "WARN" ∨
        ParseLevel s = "ERROR" ∨ ParseLevel s = "FATAL") := by
  intro s
  unfold ParseLevel normalizeLevelSpec
  split <;> simp_all

/-- Claim C6: parseTimestamp tries the textual layouts in the fixed order
RFC3339 with offset, RFC3339 with nanoseconds, millisecond UTC Z form,
"YYYY-MM-DD HH:MM:SS", syslog "Mon DD HH:MM:SS", returning the first
successful parse, and on full failure a structured error carrying the failing
value; a numeric input is a whole-second Unix epoch and never fails; any
other value type is a structured error. -/
theorem claimC6_parseTimestamp :
    ∀ (tparse : TimeParse) (v : JsonVal),
      parseTimestamp tparse v = parseTimestampSpec tparse v := by
  intro tparse v
  cases v with
  | str s =>
    simp only [parseTimestamp, parseTimestampSpec, timestampFormats, tryFormats]
    cases tparse "2006-01-02T15:04:05Z07:00" s <;>
      cases tparse "2006-01-02T15:04:05.999999999Z07:00" s <;>
        cases tparse "2006-01-02T15:04:05.000Z" s <;>
          cases tparse "2006-01-02 15:04:05" s <;>
            cases tparse "Jan 02 15:04:05" s <;> rfl
  | num n => rfl
  | bool b => rfl
  | null => rfl
  | arr xs => rfl
  | obj kvs => rfl

theorem countScores_eq (decode : Decoder) (ls : List String) :
    countScores decode ls =
      (ls.countP (fun l => isJSON decode l),
        ls.countP (fun l => isLogfmt l), ls.length) := by
  induction ls with
  | nil => rfl
  | cons a as ih =>
    simp [countScores, ih, List.countP_cons, Nat.add_comm]

/-- Claim C5: the detector scores only the first min(10, length) lines —
a line counts toward STRUCTURED iff it is brace-delimited and decodes, toward
FLAT iff it contains `=` and one of the four marker substrings, toward TEXT
unconditionally — and returns STRUCTURED iff its score strictly exceeds both
the FLAT score and half the TEXT score, else FLAT iff the FLAT score strictly
exceeds half the TEXT score, else TEXT; an empty list yields TEXT. -/
theorem claimC5_detectFormat :
    ∀ (decode : Decoder) (samples : List String),
      detectFormat decode samples = detectFormatSpec decode samples := by
  intro decode samples
  by_cases h : samples = []
  · subst h; rfl
  · have hlen : ¬samples.length = 0 := by
      simpa [List.length_eq_zero] using h
    have hmin : (if samples.length < 10 then samples.length else 10) =
        min 10 samples.length := by
      rcases Nat.lt_or_ge samples.length 10 with hl | hl
      · rw [if_pos hl, Nat.min_eq_right (Nat.le_of_lt hl)]
      · rw [if_neg (Nat.not_lt.mpr hl), Nat.min_eq_left hl]
    have htk : (samples.take (min 10 samples.length)).length =
        min 10 samples.length := by
      rw [List.length_take]
      omega
    simp only [detectFormat, detectFormatSpec, if_neg hlen, if_neg h, hmin,
      countScores_eq, htk]

/-- Claim C9: for every input whose lines all trim to empty (including the
empty string), parsing returns an empty sequence of records and no failure,
in every format mode. -/
theorem claimC9_emptyInput (fmt : Format) (decode : Decoder) (tparse : TimeParse)
    (now : GoTime) (compile : String → Option (String → Option (List String)))
    (s : String) (h : ∀ l ∈ splitOnNL s, trimSpace l = "") :
    ParseString fmt decode tparse now compile s = .ok [] := by
  have hclean : cleanLines (splitOnNL s) = [] := by
    rw [cleanLines, List.filter_eq_nil_iff]
    intro a ha
    obtain ⟨l, hl, rfl⟩ := List.mem_map.mp ha
    simp [h l hl]
  rw [ParseString, hclean]
  rfl

/-- Witness for C9 at the empty string in AUTO mode. -/
theorem claimC9_emptyInput_witness :
    ParseString Format.auto (fun _ => none) (fun _ _ => none) ⟨1⟩
      (fun _ => none) "" = .ok [] :=
  claimC9_emptyInput Format.auto (fun _ => none) (fun _ _ => none) ⟨1⟩
    (fun _ => none) "" (by decide)

theorem parseLogfmtLine_ok (tparse : TimeParse) (now : GoTime) (l : String)
    (h : trimSpace l ≠ "") : ∃ e, parseLogfmtLine tparse now l = .ok e := by
  rw [parseLogfmtLine, if_neg h]
  exact ⟨_, rfl⟩

theorem parseTextLine_ok (tparse : TimeParse) (now : GoTime)
    (pats : List textPattern) (l : String) (h : trimSpace l ≠ "") :
    ∃ e, parseTextLine tparse now pats l = .ok e := by
  rw [parseTextLine, if_neg h]
  exact ⟨_, rfl⟩

theorem parseJSON_err_of_bad (decode : Decoder) (tparse : TimeParse)
    (now : GoTime) :
    ∀ lines : List String, (∀ l ∈ lines, trimSpace l ≠ "") →
      ∀ l ∈ lines, decode (trimSpace l) = none →
        exceptIsOk (parseJSON decode tparse now lines) = false := by
  intro lines
  induction lines with
  | nil => intro _ l hl; cases hl
  | cons a as ih =>
    intro h l hl hd
    rw [parseJSON]
    cases hpl : parseJSONLine decode tparse now a with
    | error e => rfl
    | ok ent =>
      rcases List.mem_cons.mp hl with rfl | hmem
      · rw [parseJSONLine, if_neg (h l (List.mem_cons_self l as)), hd] at hpl
        cases hpl
      · have hrec := ih (fun x hx => h x (List.mem_cons_of_mem a hx)) l hmem hd
        cases hres : parseJSON decode tparse now as with
        | error e => rfl
        | ok es => rw [hres, exceptIsOk] at hrec; cases hrec

theorem parseLogfmt_len (tparse : TimeParse) (now : GoTime) :
    ∀ lines : List String, (∀ l ∈ lines, trimSpace l ≠ "") →
      okLength (parseLogfmt tparse now lines) = some lines.length := by
  intro lines
  induction lines with
  | nil => intro _; rfl
  | cons a as ih =>
    intro h
    obtain ⟨e, he⟩ := parseLogfmtLine_ok tparse now a (h a (List.mem_cons_self a as))
    have hrec := ih (fun x hx => h x (List.mem_cons_of_mem a hx))
    rw [parseLogfmt, he]
    cases hres : parseLogfmt tparse now as with
    | error e2 => rw [hres, okLength] at hrec; cases hrec
    | ok es =>
      rw [hres, okLength, Option.some.injEq] at hrec
      simp [okLength, hrec]

theorem parseText_len (tparse : TimeParse) (now : GoTime)
    (compile : String → Option (String → Option (List String))) :
    ∀ lines : List String, (∀ l ∈ lines, trimSpace l ≠ "") →
      okLength (parseText tparse now compile lines) = some lines.length := by
  intro lines
  induction lines with
  | nil => intro _; rfl
  | cons a as ih =>
    intro h
    obtain ⟨e, he⟩ := parseTextLine_ok tparse now (initTextPatterns compile) a
      (h a (List.mem_cons_self a as))
    have hrec := ih (fun x hx => h x (List.mem_cons_of_mem a hx))
    rw [parseText, he]
    cases hres : parseText tparse now compile as with
    | error e2 => rw [hres, okLength] at hrec; cases hrec
    | ok es =>
      rw [hres, okLength, Option.some.injEq] at hrec
      simp [okLength, hrec]

/-- Claim C1: in STRUCTURED (JSON) mode a batch of non-empty lines fails as a
whole (no records) as soon as any line fails to decode as a generic object;
in FLAT (logfmt) and TEXT modes extraction of each non-empty line never
fails, so the call returns exactly one record per line and no error. -/
theorem claimC1_errorAsymmetry (decode : Decoder) (tparse : TimeParse)
    (now : GoTime) (compile : String → Option (String → Option (List String)))
    (lines : List String) (h : ∀ l ∈ lines, trimSpace l ≠ "") :
    ((∃ l ∈ lines, decode (trimSpace l) = none) →
      exceptIsOk (parseJSON decode tparse now lines) = false) ∧
    okLength (parseLogfmt tparse now lines) = some lines.length ∧
    okLength (parseText tparse now compile lines) = some lines.length := by
  refine ⟨?_, parseLogfmt_len tparse now lines h, parseText_len tparse now compile lines h⟩
  intro hex
  obtain ⟨l, hl, hd⟩ := hex
  exact parseJSON_err_of_bad decode tparse now lines h l hl hd

/-- Witness for C1: one undecodable line makes the JSON batch fail while
logfmt and text still return one record per line. -/
theorem claimC1_errorAsymmetry_witness :
    exceptIsOk (parseJSON (fun _ => none) (fun _ _ => none) ⟨1⟩ ["a"]) = false ∧
    okLength (parseLogfmt (fun _ _ => none) ⟨1⟩ ["a"]) = some 1 ∧
    okLength (parseText (fun _ _ => none) ⟨1⟩ (fun _ => none) ["a"]) = some 1 := by
  have h := claimC1_errorAsymmetry (fun _ => none) (fun _ _ => none) ⟨1⟩
    (fun _ => none) ["a"] (by decide)
  exact ⟨h.1 ⟨"a", by decide, rfl⟩, h.2.1, h.2.2⟩

theorem tryPatterns_append_none (tparse : TimeParse) (l : String) (e : LogEntry) :
    ∀ pats1 rest : List textPattern, (∀ q ∈ pats1, q.regex l = none) →
      tryPatterns tparse (pats1 ++ rest) l e = tryPatterns tparse rest l e := by
  intro pats1
  induction pats1 with
  | nil => intro rest _; rfl
  | cons q qs ih =>
    intro rest h
    rw [List.cons_append, tryPatterns, h q (List.mem_cons_self q qs)]
    exact ih rest (fun x hx => h x (List.mem_cons_of_mem q hx))

theorem tryPatterns_none (tparse : TimeParse) (l : String) (e : LogEntry)
    (pats : List textPattern) (h : ∀ q ∈ pats, q.regex l = none) :
    tryPatterns tparse pats l e = e := by
  have hap := tryPatterns_append_none tparse l e pats [] h
  rw [List.append_nil] at hap
  exact hap

/-- Claim C4: for every non-empty free-text line, (a) extraction never
fails; (b) the pattern list is tried strictly in order and the first pattern
whose shape matches alone determines the outcome — patterns after it never
affect the result; (c) if no pattern matches, the defaults
{message = trimmed line, level = INFO} stand with the timestamp set to the
current time; (d) a timestamp still zero after pattern matching is replaced
by the current time. -/
theorem claimC4_textMatcher (tparse : TimeParse) (now : GoTime) (line : String)
    (h : trimSpace line ≠ "") :
    (∀ pats : List textPattern, ∃ e, parseTextLine tparse now pats line = .ok e) ∧
    (∀ (pats1 : List textPattern) (p : textPattern) (pats2 : List textPattern)
        (ms : List String),
      (∀ q ∈ pats1, q.regex (trimSpace line) = none) →
      p.regex (trimSpace line) = some ms →
      parseTextLine tparse now (pats1 ++ p :: pats2) line =
        parseTextLine tparse now (pats1 ++ [p]) line) ∧
    (∀ pats : List textPattern,
      (∀ q ∈ pats, q.regex (trimSpace line) = none) →
      parseTextLine tparse now pats line = .ok ⟨now, "INFO", trimSpace line, []⟩) ∧
    (∀ (pats : List textPattern) (e : LogEntry),
      parseTextLine tparse now pats line = .ok e →
      e.Timestamp.isZero = true → now.isZero = true) := by
  refine ⟨?_, ?_, ?_, ?_⟩
  · intro pats
    exact parseTextLine_ok tparse now pats line h
  · intro pats1 p pats2 ms h1 hp
    rw [parseTextLine, parseTextLine, if_neg h, if_neg h]
    rw [tryPatterns_append_none tparse _ _ pats1 (p :: pats2) h1,
      tryPatterns_append_none tparse _ _ pats1 [p] h1]
    rw [tryPatterns, tryPatterns, hp]
  · intro pats hnone
    rw [parseTextLine, if_neg h]
    rw [tryPatterns_none tparse _ _ pats hnone]
    rfl
  · intro pats e hok hz
    rw [parseTextLine, if_neg h] at hok
    have he := Except.ok.inj hok
    rw [textFinalize] at he
    set e1 := tryPatterns tparse pats (trimSpace line)
      ⟨GoTime.zeroT, "INFO", trimSpace line, []⟩ with he1
    by_cases hc : e1.Timestamp.isZero = true
    · rw [if_pos hc] at he
      rw [← he] at hz
      exact hz
    · rw [if_neg hc] at he
      rw [← he] at hz
      exact absurd hz hc

/-- Witness for C4: with an empty pattern list a non-empty line yields the
default record with the timestamp defaulted to now. -/
theorem claimC4_textMatcher_witness :
    parseTextLine (fun _ _ => none) ⟨5⟩ [] "hello" =
      .ok ⟨⟨5⟩, "INFO", "hello", []⟩ :=
  (claimC4_textMatcher (fun _ _ => none) ⟨5⟩ "hello" (by decide)).2.2.1 []
    (by simp)

theorem strDataAppend (s t : String) : (s ++ t).data = s.data ++ t.data := rfl

theorem logfmtAux_allKey :
    ∀ (cs : List Char) (prev : Option Char) (key : List Char)
      (pairs : List (List Char × List Char)),
      (∀ c ∈ cs, c ≠ '=' ∧ c ≠ '"' ∧ c ≠ ' ') →
      parseLogfmtPairsAux cs prev key [] false true pairs =
        (if key ++ cs ≠ [] then mapInsert pairs (key ++ cs) [] else pairs) := by
  intro cs
  induction cs with
  | nil =>
    intro prev key pairs _
    rw [List.append_nil]
    rfl
  | cons c cs ih =>
    intro prev key pairs h
    obtain ⟨hc1, hc2, hc3⟩ := h c (List.mem_cons_self c cs)
    have hstep : parseLogfmtPairsAux (c :: cs) prev key [] false true pairs =
        parseLogfmtPairsAux cs (some c) (key ++ [c]) [] false true pairs := by
      simp only [parseLogfmtPairsAux]
      simp [hc1]
    rw [hstep, ih (some c) (key ++ [c]) pairs
      (fun x hx => h x (List.mem_cons_of_mem c hx)), List.append_assoc]
    rfl

/-- Counterexample to claim C3 as stated: the line `foo` contains no `=` at
all, yet the tokenizer emits the pending key `foo` with an empty value at end
of line instead of dropping it. -/
theorem claimC3_counterexample :
    ("foo".data.contains '=') = false ∧ parseLogfmtPairs "foo" = [("foo", "")] := by
  constructor
  · decide
  · decide

/-- Claim C3 (amended): at end of line a pending non-empty key is emitted
with whatever value has accumulated even when no `=` was ever consumed — a
line that is one bare word (no `=`, quote or space) tokenizes to that word as
a key with an empty value; only an empty pending key is dropped. -/
theorem claimC3_amended (line : String) (h1 : line ≠ "")
    (h2 : ∀ c ∈ line.data, c ≠ '=' ∧ c ≠ '"' ∧ c ≠ ' ') :
    parseLogfmtPairs line = [(line, "")] := by
  have hne : line.data ≠ [] := by
    intro hc
    exact h1 (String.ext hc)
  rw [parseLogfmtPairs, logfmtAux_allKey line.data none [] [] h2]
  rw [List.nil_append, if_pos hne]
  rfl

/-- Witness for the amended C3 at the bare word `level`. -/
theorem claimC3_amended_witness : parseLogfmtPairs "level" = [("level", "")] :=
  claimC3_amended "level" (by decide) (by decide)

/-- Claim C10: in the quoted-value state a backslash-escaped quote does not
terminate the quoted state and both characters are appended verbatim to the
value (no unescaping); in particular the value of `msg="a \"b\""` keeps the
backslash-quote sequences literally. -/
theorem claimC10_escapedQuoteVerbatim :
    (∀ (rest : List Char) (prev : Option Char) (key value : List Char)
        (pairs : List (List Char × List Char)),
      parseLogfmtPairsAux ('\\' :: '"' :: rest) prev key value true false pairs =
        parseLogfmtPairsAux rest (some '"') key (value ++ ['\\', '"']) true false pairs) ∧
    parseLogfmtPairs "msg=\"a \\\"b\\\"\"" = [("msg", "a \\\"b\\\"")] := by
  constructor
  · intro rest prev key value pairs
    simp [parseLogfmtPairsAux, prevNotBackslash]
  · decide

theorem logfmtAux_quotedPhase :
    ∀ (vs : List Char) (p : Char) (key val : List Char)
      (pairs : List (List Char × List Char)), quotesOkB p vs = true →
      parseLogfmtPairsAux (vs ++ ['"']) (some p) key val true false pairs =
        (if key ≠ [] then mapInsert pairs key (val ++ vs) else pairs) := by
  intro vs
  induction vs with
  | nil =>
    intro p key val pairs hq
    rw [quotesOkB] at hq
    rw [List.nil_append, List.append_nil]
    simp only [parseLogfmtPairsAux]
    simp [prevNotBackslash, hq]
  | cons c cs ih =>
    intro p key val pairs hq
    rw [quotesOkB, Bool.and_eq_true] at hq
    by_cases hc : c = '"'
    · subst hc
      have hp : p = '\\' := by
        have := hq.1
        rw [if_pos rfl] at this
        exact eq_of_beq this
      subst hp
      have hstep : parseLogfmtPairsAux ('"' :: (cs ++ ['"'])) (some '\\') key val
          true false pairs =
          parseLogfmtPairsAux (cs ++ ['"']) (some '"') key (val ++ ['"'])
            true false pairs := by
        simp only [parseLogfmtPairsAux]
        simp [prevNotBackslash]
      rw [List.cons_append, hstep, ih '"' key (val ++ ['"']) pairs hq.2,
        List.append_assoc]
      rfl
    · have hstep : parseLogfmtPairsAux (c :: (cs ++ ['"'])) (some p) key val
          true false pairs =
          parseLogfmtPairsAux (cs ++ ['"']) (some c) key (val ++ [c])
            true false pairs := by
        simp only [parseLogfmtPairsAux]
        simp [hc]
      rw [List.cons_append, hstep, ih c key (val ++ [c]) pairs hq.2,
        List.append_assoc]
      rfl

theorem logfmtAux_keyPhase :
    ∀ (ks rest : List Char) (prev : Option Char) (key : List Char)
      (pairs : List (List Char × List Char)), (∀ c ∈ ks, c ≠ '=') →
      parseLogfmtPairsAux (ks ++ '=' :: rest) prev key [] false true pairs =
        parseLogfmtPairsAux rest (some '=') (key ++ ks) [] false false pairs := by
  intro ks
  induction ks with
  | nil =>
    intro rest prev key pairs _
    rw [List.nil_append, List.append_nil]
    simp only [parseLogfmtPairsAux]
    simp
  | cons c cs ih =>
    intro rest prev key pairs h
    have hc : c ≠ '=' := h c (List.mem_cons_self c cs)
    have hstep : parseLogfmtPairsAux (c :: (cs ++ '=' :: rest)) prev key []
        false true pairs =
        parseLogfmtPairsAux (cs ++ '=' :: rest) (some c) (key ++ [c]) []
          false true pairs := by
      simp only [parseLogfmtPairsAux]
      simp [hc]
    rw [List.cons_append, hstep,
      ih rest (some c) (key ++ [c]) pairs (fun x hx => h x (List.mem_cons_of_mem c hx)),
      List.append_assoc]
    rfl

/-- Claim C7: a properly quoted flat value round-trips exactly through the
tokenizer — the emitted value is the text between the quotes verbatim,
spaces and escaped quotes included — and no error is possible. -/
theorem claimC7_quotedRoundTrip (k v : String) (hk1 : k ≠ "")
    (hk2 : ∀ c ∈ k.data, c ≠ '=') (hv : quotesOkB '"' v.data = true) :
    parseLogfmtPairs (k ++ "=\"" ++ v ++ "\"") = [(k, v)] := by
  have hdata : (k ++ "=\"" ++ v ++ "\"").data
      = k.data ++ '=' :: '"' :: (v.data ++ ['"']) := by
    rw [strDataAppend, strDataAppend, strDataAppend]
    simp
  have hne : k.data ≠ [] := fun hc => hk1 (String.ext hc)
  rw [parseLogfmtPairs, hdata,
    logfmtAux_keyPhase k.data ('"' :: (v.data ++ ['"'])) none [] [] hk2]
  have hopen : parseLogfmtPairsAux ('"' :: (v.data ++ ['"'])) (some '=')
      ([] ++ k.data) [] false false [] =
      parseLogfmtPairsAux (v.data ++ ['"']) (some '"') k.data [] true false [] := by
    simp only [parseLogfmtPairsAux]
    simp [prevNotBackslash]
  rw [hopen, logfmtAux_quotedPhase v.data '"' k.data [] [] hv, if_pos hne]
  rfl

/-- Witness for C7 at a value with spaces and two escaped quotes. -/
theorem claimC7_quotedRoundTrip_witness :
    parseLogfmtPairs "msg=\"a \\\"b\\\" c\"" = [("msg", "a \\\"b\\\" c")] :=
  claimC7_quotedRoundTrip "msg" "a \\\"b\\\" c" (by decide) (by decide) (by decide)

/-- Iterated Go `delete`. -/
def removeKeys {β : Type} (m : List (String × β)) (ks : List String) :
    List (String × β) :=
  ks.foldl removeKey m

theorem lookupKV_removeKeys_none {β : Type} {m : List (String × β)} {k : String}
    (ks : List String) (h : lookupKV m k = none) :
    lookupKV (removeKeys m ks) k = none := by
  induction ks generalizing m with
  | nil => exact h
  | cons a as ih => exact ih (lookupKV_removeKey_none m a h)

theorem lookupKV_removeKeys_mem {β : Type} {m : List (String × β)} {k : String}
    {ks : List String} (h : k ∈ ks) :
    lookupKV (removeKeys m ks) k = none := by
  induction ks generalizing m with
  | nil => cases h
  | cons a as ih =>
    rcases List.mem_cons.mp h with rfl | hmem
    · exact lookupKV_removeKeys_none as (lookupKV_removeKey_self m k)
    · exact ih hmem

theorem lookupKV_removeKeys_not_mem {β : Type} {m : List (String × β)} {k : String}
    {ks : List String} (h : k ∉ ks) :
    lookupKV (removeKeys m ks) k = lookupKV m k := by
  induction ks generalizing m with
  | nil => rfl
  | cons a as ih =>
    have hka : k ≠ a := fun hc => h (hc ▸ List.mem_cons_self a as)
    have hmem : k ∉ as := fun hc => h (List.mem_cons_of_mem a hc)
    rw [removeKeys, List.foldl_cons]
    rw [show (List.foldl removeKey (removeKey m a) as) =
      removeKeys (removeKey m a) as from rfl]
    rw [ih hmem, lookupKV_removeKey_ne m hka]

theorem findHit_strHit_removeKey (raw : JsonObj) (k0 : String)
    (keys : List String) (hd : ∀ k ∈ keys, k ≠ k0) :
    findHit (jsonStrHit (removeKey raw k0)) keys =
      findHit (jsonStrHit raw) keys :=
  findHit_congr keys (fun k hk => jsonStrHit_removeKey (hd k hk))

theorem extractJSONTimestamp_eq (tparse : TimeParse) (now : GoTime) (raw : JsonObj) :
    extractJSONTimestamp tparse now raw GoTime.zeroT =
      (match firstTsKeySpec tparse raw with
       | some p => (p.2, removeKey raw p.1)
       | none => (now, raw)) := by
  rw [extractJSONTimestamp, findHit_ts_eq]
  cases firstTsKeySpec tparse raw with
  | some p => rfl
  | none => rfl

theorem extractJSONLevel_eq (raw1 : JsonObj) :
    extractJSONLevel raw1 =
      (match firstLvlKeySpec raw1 with
       | some p => (ParseLevel p.2, removeKey raw1 p.1)
       | none => ("INFO", raw1)) := by
  rw [extractJSONLevel, findHit_lvl_eq]
  cases firstLvlKeySpec raw1 with
  | some p => rfl
  | none => rfl

theorem extractJSONMessage_eq (raw2 : JsonObj) :
    extractJSONMessage raw2 =
      (match firstMsgKeySpec raw2 with
       | some p => (p.2, removeKey raw2 p.1)
       | none => ("", raw2)) := by
  rw [extractJSONMessage, findHit_msg_eq]
  cases firstMsgKeySpec raw2 with
  | some p => rfl
  | none => rfl

theorem firstLvl_removeKey_ts (raw : JsonObj) {k0 : String} (hk0 : k0 ∈ jsonTsKeys) :
    firstLvlKeySpec (removeKey raw k0) = firstLvlKeySpec raw := by
  have hd : ∀ k ∈ jsonLvlKeys, ∀ j ∈ jsonTsKeys, k ≠ j := by decide
  rw [← findHit_lvl_eq, ← findHit_lvl_eq,
    findHit_strHit_removeKey raw k0 jsonLvlKeys (fun k hk => hd k hk k0 hk0)]

theorem firstMsg_removeKey_ts (raw : JsonObj) {k0 : String} (hk0 : k0 ∈ jsonTsKeys) :
    firstMsgKeySpec (removeKey raw k0) = firstMsgKeySpec raw := by
  have hd : ∀ k ∈ jsonMsgKeys, ∀ j ∈ jsonTsKeys, k ≠ j := by decide
  rw [← findHit_msg_eq, ← findHit_msg_eq,
    findHit_strHit_removeKey raw k0 jsonMsgKeys (fun k hk => hd k hk k0 hk0)]

theorem firstMsg_removeKey_lvl (raw : JsonObj) {k0 : String} (hk0 : k0 ∈ jsonLvlKeys) :
    firstMsgKeySpec (removeKey raw k0) = firstMsgKeySpec raw := by
  have hd : ∀ k ∈ jsonMsgKeys, ∀ j ∈ jsonLvlKeys, k ≠ j := by decide
  rw [← findHit_msg_eq, ← findHit_msg_eq,
    findHit_strHit_removeKey raw k0 jsonMsgKeys (fun k hk => hd k hk k0 hk0)]

theorem firstTsKeySpec_mem {tparse : TimeParse} {raw : JsonObj} {k : String}
    {t : GoTime} (h : firstTsKeySpec tparse raw = some (k, t)) : k ∈ jsonTsKeys := by
  have hf : findHit (jsonTsHit tparse raw) jsonTsKeys = some (k, t) := by
    rw [findHit_ts_eq]; exact h
  exact (findHit_some hf).1

theorem firstLvlKeySpec_mem {raw : JsonObj} {k s : String}
    (h : firstLvlKeySpec raw = some (k, s)) : k ∈ jsonLvlKeys := by
  have hf : findHit (jsonStrHit raw) jsonLvlKeys = some (k, s) := by
    rw [findHit_lvl_eq]; exact h
  exact (findHit_some hf).1

theorem jsonEntryOf_spec (tparse : TimeParse) (now : GoTime) (raw : JsonObj) :
    (jsonEntryOf tparse now raw).Timestamp =
      (match firstTsKeySpec tparse raw with
       | some p => p.2
       | none => now) ∧
    (jsonEntryOf tparse now raw).Fields =
      removeKeys raw (consumedKeysSpec tparse raw) := by
  have hA := extractJSONTimestamp_eq tparse now raw
  rcases hT : firstTsKeySpec tparse raw with _ | ⟨k1, t1⟩ <;> rw [hT] at hA
  · have hB := extractJSONLevel_eq raw
    rcases hL : firstLvlKeySpec raw with _ | ⟨k2, s2⟩ <;> rw [hL] at hB
    · have hC := extractJSONMessage_eq raw
      rcases hM : firstMsgKeySpec raw with _ | ⟨k3, s3⟩ <;> rw [hM] at hC
      · constructor
        · simp [jsonEntryOf, hA]
        · simp [jsonEntryOf, hA, hB, hC, consumedKeysSpec, hT, hL, hM, removeKeys]
      · constructor
        · simp [jsonEntryOf, hA]
        · simp [jsonEntryOf, hA, hB, hC, consumedKeysSpec, hT, hL, hM, removeKeys]
    · have hC := extractJSONMessage_eq (removeKey raw k2)
      rw [firstMsg_removeKey_lvl raw (firstLvlKeySpec_mem hL)] at hC
      rcases hM : firstMsgKeySpec raw with _ | ⟨k3, s3⟩ <;> rw [hM] at hC
      · constructor
        · simp [jsonEntryOf, hA]
        · simp [jsonEntryOf, hA, hB, hC, consumedKeysSpec, hT, hL, hM, removeKeys]
      · constructor
        · simp [jsonEntryOf, hA]
        · simp [jsonEntryOf, hA, hB, hC, consumedKeysSpec, hT, hL, hM, removeKeys]
  · have hmem1 := firstTsKeySpec_mem hT
    have hB := extractJSONLevel_eq (removeKey raw k1)
    rw [firstLvl_removeKey_ts raw hmem1] at hB
    rcases hL : firstLvlKeySpec raw with _ | ⟨k2, s2⟩ <;> rw [hL] at hB
    · have hC := extractJSONMessage_eq (removeKey raw k1)
      rw [firstMsg_removeKey_ts raw hmem1] at hC
      rcases hM : firstMsgKeySpec raw with _ | ⟨k3, s3⟩ <;> rw [hM] at hC
      · constructor
        · simp [jsonEntryOf, hA]
        · simp [jsonEntryOf, hA, hB, hC, consumedKeysSpec, hT, hL, hM, removeKeys]
      · constructor
        · simp [jsonEntryOf, hA]
        · simp [jsonEntryOf, hA, hB, hC, consumedKeysSpec, hT, hL, hM, removeKeys]
    · have hC := extractJSONMessage_eq (removeKey (removeKey raw k1) k2)
      rw [firstMsg_removeKey_lvl (removeKey raw k1) (firstLvlKeySpec_mem hL),
        firstMsg_removeKey_ts raw hmem1] at hC
      rcases hM : firstMsgKeySpec raw with _ | ⟨k3, s3⟩ <;> rw [hM] at hC
      · constructor
        · simp [jsonEntryOf, hA]
        · simp [jsonEntryOf, hA, hB, hC, consumedKeysSpec, hT, hL, hM, removeKeys]
      · constructor
        · simp [jsonEntryOf, hA]
        · simp [jsonEntryOf, hA, hB, hC, consumedKeysSpec, hT, hL, hM, removeKeys]

/-- Claim C2: for every structured line that decodes as an object, the
timestamp keys timestamp, time, @timestamp, ts are tried in order, the first
key present whose value parses is removed and its instant recorded, with the
record timestamp defaulting to the current time when no candidate is present
or none parses; every top-level key not consumed by the timestamp, level and
message liftings appears in `Fields` with its original value and type, and no
consumed key appears. -/
theorem claimC2_jsonFieldLifting (decode : Decoder) (tparse : TimeParse)
    (now : GoTime) (l : String) (raw : JsonObj)
    (h1 : trimSpace l ≠ "") (h2 : decode (trimSpace l) = some raw) :
    exceptIsOk (parseJSONLine decode tparse now l) = true ∧
    ∀ e : LogEntry, parseJSONLine decode tparse now l = .ok e →
      (e.Timestamp = (match firstTsKeySpec tparse raw with
        | some p => p.2
        | none => now)) ∧
      (∀ k ∈ consumedKeysSpec tparse raw, lookupKV e.Fields k = none) ∧
      (∀ k, k ∉ consumedKeysSpec tparse raw →
        lookupKV e.Fields k = lookupKV raw k) := by
  have hline : parseJSONLine decode tparse now l = .ok (jsonEntryOf tparse now raw) := by
    rw [parseJSONLine, if_neg h1, h2]
  refine ⟨by rw [hline]; rfl, ?_⟩
  intro e he
  rw [hline] at he
  have hee := Except.ok.inj he
  subst hee
  obtain ⟨hts, hfld⟩ := jsonEntryOf_spec tparse now raw
  refine ⟨hts, ?_, ?_⟩
  · intro k hk
    rw [hfld]
    exact lookupKV_removeKeys_mem hk
  · intro k hk
    rw [hfld]
    exact lookupKV_removeKeys_not_mem hk

/-- Witness for C2 at a one-field object with no recognized keys. -/
theorem claimC2_jsonFieldLifting_witness :
    exceptIsOk (parseJSONLine (fun _ => some [("a", JsonVal.num 5)])
      (fun _ _ => none) ⟨7⟩ "x") = true :=
  (claimC2_jsonFieldLifting (fun _ => some [("a", JsonVal.num 5)])
    (fun _ _ => none) ⟨7⟩ "x" [("a", JsonVal.num 5)] (by decide) rfl).1
